import Mathlib

/-!
Verification of the nomo core: the tag scanner that splits raw memo text
into ordered tagged segments, the message-to-page dispatch pipeline, and
the startup notify capability from `cmd/nomo/main.go`.
-/

namespace Nomo

/-- A parsed unit of memo text: `tag` (empty string means untagged),
`content`, and a zero-based `order` assigned by scan position. -/
structure Segment where
  tag : String
  content : String
  order : Nat
deriving Repr, DecidableEq

/-- Modelled from the spec: an internal segment record of the tag scanner
`ScanContent` of package `infrastructure/utils`, whose source is not in the
repository snapshot (only its test callers in
`infrastructure/notion/notion_client_test.go` are).  Besides the public
`tag` and `content` it records provenance used by the reconstruction
theorems: `marked` is true when the segment originated from a `#` marker,
and `delim` holds the single discarded whitespace character that separated
the tag name from its content, when there was one. -/
structure RawSeg where
  marked : Bool
  tag : List Char
  delim : Option Char
  content : List Char
deriving Repr, DecidableEq

/-- Modelled from the spec: the scanner state.  `name t` means a tag name
`t` is being read after a `#`; `body m t d b` means content `b` is being
accumulated for the pending segment (marked `m`, tag `t`, recorded
delimiter `d`). -/
inductive ScanSt
  | name (t : List Char)
  | body (m : Bool) (t : List Char) (d : Option Char) (b : List Char)
deriving Repr, DecidableEq

/-- Modelled from the spec: segments emitted when the scanner state is
flushed at a boundary (a `#` marker or end of input).  A pending tag name
becomes a tagged segment with empty content; an untagged pending body is
emitted only when non-empty, while a marked one is always emitted. -/
def stFlush : ScanSt → List RawSeg
  | ScanSt.name t => [⟨true, t, none, []⟩]
  | ScanSt.body m t d b => if m = false ∧ b = [] then [] else [⟨m, t, d, b⟩]

/-- Modelled from the spec: one left-to-right step of the tag scanner over a
single character, spec section 4.1.  In `name` mode a `#` ends the tag and
starts a new one, a whitespace character ends the tag and is discarded
(recorded as the delimiter), and any other character extends the tag name.
In `body` mode a `#` flushes the pending segment and starts a tag name, and
any other character extends the content. -/
def scanStep : List RawSeg × ScanSt → Char → List RawSeg × ScanSt
  | (acc, ScanSt.name t), c =>
    if c = '#' then (acc ++ [⟨true, t, none, []⟩], ScanSt.name [])
    else if c.isWhitespace then (acc, ScanSt.body true t (some c) [])
    else (acc, ScanSt.name (t ++ [c]))
  | (acc, ScanSt.body m t d b), c =>
    if c = '#' then (acc ++ stFlush (ScanSt.body m t d b), ScanSt.name [])
    else (acc, ScanSt.body m t d (b ++ [c]))

/-- Modelled from the spec: the tag scanner on a list of Unicode code
points, spec section 4.1: fold the step function over the characters from
the initial untagged state and flush the final state. -/
def scanRaw (s : List Char) : List RawSeg :=
  (s.foldl scanStep ([], ScanSt.body false [] none [])).1
    ++ stFlush (s.foldl scanStep ([], ScanSt.body false [] none [])).2

/-- Assign consecutive `order` values starting at `n` to raw segments. -/
def withOrders : Nat → List RawSeg → List Segment
  | _, [] => []
  | n, r :: rs => ⟨r.tag.asString, r.content.asString, n⟩ :: withOrders (n + 1) rs

/-- Modelled from the spec: the public tag scanner
`utils.ScanContent(rawText) -> []Segment`, absent from the repository
snapshot.  It projects the raw segments to `(tag, content)` and assigns
`order` as a zero-based counter over emitted segments. -/
def ScanContent (s : String) : List Segment :=
  withOrders 0 (scanRaw s.data)

/-- Render one raw segment back to text: its `#` marker when it had one,
its tag name, the recorded delimiting whitespace, and its content. -/
def renderRaw (r : RawSeg) : List Char :=
  (if r.marked then ['#'] else []) ++ r.tag ++ r.delim.toList ++ r.content

/-- Render a segment sequence back to text. -/
def renderAll (rs : List RawSeg) : List Char := (rs.map renderRaw).flatten

/-- The text still owed by an unfinished scanner state. -/
def stRender : ScanSt → List Char
  | ScanSt.name t => '#' :: t
  | ScanSt.body m t d b => (if m then '#' :: (t ++ d.toList) else []) ++ b

/-- A raw segment records only whitespace as its discarded delimiter. -/
def delimOk (r : RawSeg) : Prop := ∀ c, r.delim = some c → c.isWhitespace = true

/-- Invariant of reachable scanner states: an unmarked pending body has no
tag and no delimiter, and a recorded delimiter is whitespace. -/
def stInv : ScanSt → Prop
  | ScanSt.name _ => True
  | ScanSt.body m t d _ =>
      (m = false → t = [] ∧ d = none) ∧ (∀ c, d = some c → c.isWhitespace = true)

/-- Joint invariant of the fold state. -/
def invP (p : List RawSeg × ScanSt) : Prop :=
  stInv p.2 ∧ ∀ r ∈ p.1, delimOk r

theorem renderAll_append (xs ys : List RawSeg) :
    renderAll (xs ++ ys) = renderAll xs ++ renderAll ys := by
  simp [renderAll]

theorem renderAll_stFlush (st : ScanSt) (h : stInv st) :
    renderAll (stFlush st) = stRender st := by
  cases st with
  | name t => simp [stFlush, stRender, renderAll, renderRaw]
  | body m t d b =>
    by_cases hm : m = false ∧ b = []
    · obtain ⟨ht, hd⟩ := h.1 hm.1
      simp [stFlush, stRender, hm.1, hm.2, ht, hd, renderAll, if_pos (And.intro hm.1 hm.2)]
    · cases m with
      | false =>
        obtain ⟨ht, hd⟩ := h.1 rfl
        have hb : ¬ b = [] := fun hb => hm ⟨rfl, hb⟩
        simp [stFlush, stRender, ht, hd, renderAll, renderRaw, hb]
      | true =>
        simp [stFlush, stRender, renderAll, renderRaw]

theorem delimOk_stFlush (st : ScanSt) (h : stInv st) :
    ∀ r ∈ stFlush st, delimOk r := by
  cases st with
  | name t =>
    intro r hr
    simp [stFlush] at hr
    subst hr
    intro c hc
    simp at hc
  | body m t d b =>
    intro r hr
    simp only [stFlush] at hr
    split at hr
    · simp at hr
    · simp at hr
      subst hr
      intro c hc
      exact h.2 c hc

theorem scanStep_name_hash (acc : List RawSeg) (t : List Char) :
    scanStep (acc, ScanSt.name t) '#'
      = (acc ++ [⟨true, t, none, []⟩], ScanSt.name []) := by
  simp [scanStep]

theorem scanStep_name_ws (acc : List RawSeg) (t : List Char) (c : Char)
    (hc : ¬ c = '#') (hw : c.isWhitespace = true) :
    scanStep (acc, ScanSt.name t) c = (acc, ScanSt.body true t (some c) []) := by
  simp [scanStep, hc, hw]

theorem scanStep_name_other (acc : List RawSeg) (t : List Char) (c : Char)
    (hc : ¬ c = '#') (hw : c.isWhitespace = false) :
    scanStep (acc, ScanSt.name t) c = (acc, ScanSt.name (t ++ [c])) := by
  simp [scanStep, hc, hw]

theorem scanStep_body_hash (acc : List RawSeg) (m : Bool) (t : List Char)
    (d : Option Char) (b : List Char) :
    scanStep (acc, ScanSt.body m t d b) '#'
      = (acc ++ stFlush (ScanSt.body m t d b), ScanSt.name []) := by
  simp [scanStep]

theorem scanStep_body_other (acc : List RawSeg) (m : Bool) (t : List Char)
    (d : Option Char) (b : List Char) (c : Char) (hc : ¬ c = '#') :
    scanStep (acc, ScanSt.body m t d b) c = (acc, ScanSt.body m t d (b ++ [c])) := by
  simp [scanStep, hc]

theorem scanStep_spec (p : List RawSeg × ScanSt) (c : Char) (hp : invP p) :
    invP (scanStep p c) ∧
      renderAll (scanStep p c).1 ++ stRender (scanStep p c).2
        = renderAll p.1 ++ stRender p.2 ++ [c] := by
  obtain ⟨acc, st⟩ := p
  obtain ⟨hst, hacc⟩ := hp
  cases st with
  | name t =>
    by_cases hc : c = '#'
    · subst hc
      rw [scanStep_name_hash]
      refine ⟨⟨trivial, ?_⟩, ?_⟩
      · intro r hr
        rcases List.mem_append.1 hr with h1 | h1
        · exact hacc r h1
        · rw [List.mem_singleton] at h1
          subst h1
          intro x hx
          simp at hx
      · rw [renderAll_append]
        simp [renderAll, renderRaw, stRender]
    · by_cases hw : c.isWhitespace
      · rw [scanStep_name_ws acc t c hc hw]
        refine ⟨⟨⟨fun h => by simp at h, ?_⟩, hacc⟩, ?_⟩
        · intro x hx
          rw [Option.some_inj] at hx
          rw [← hx]
          exact hw
        · simp [stRender]
      · rw [scanStep_name_other acc t c hc (by simpa using hw)]
        exact ⟨⟨trivial, hacc⟩, by simp [stRender]⟩
  | body m t d b =>
    by_cases hc : c = '#'
    · subst hc
      rw [scanStep_body_hash]
      refine ⟨⟨trivial, ?_⟩, ?_⟩
      · intro r hr
        rcases List.mem_append.1 hr with h1 | h1
        · exact hacc r h1
        · exact delimOk_stFlush _ hst r h1
      · rw [renderAll_append, renderAll_stFlush _ hst]
        simp [stRender]
    · rw [scanStep_body_other acc m t d b c hc]
      exact ⟨⟨⟨fun h => hst.1 h, hst.2⟩, hacc⟩, by simp [stRender]⟩

theorem foldl_scanStep_spec (cs : List Char) :
    ∀ p : List RawSeg × ScanSt, invP p →
      invP (cs.foldl scanStep p) ∧
        renderAll (cs.foldl scanStep p).1 ++ stRender (cs.foldl scanStep p).2
          = renderAll p.1 ++ stRender p.2 ++ cs := by
  induction cs with
  | nil => intro p hp; simpa using hp
  | cons c cs ih =>
    intro p hp
    obtain ⟨h1, h2⟩ := scanStep_spec p c hp
    obtain ⟨h3, h4⟩ := ih (scanStep p c) h1
    refine ⟨by simpa using h3, ?_⟩
    simp only [List.foldl_cons]
    rw [h4, h2]
    simp

theorem invP_init : invP ([], ScanSt.body false [] none []) := by
  constructor
  · exact ⟨fun _ => ⟨rfl, rfl⟩, fun c hc => by simp at hc⟩
  · intro r hr; simp at hr

theorem scanRaw_render (s : List Char) :
    renderAll (scanRaw s) = s ∧ ∀ r ∈ scanRaw s, delimOk r := by
  obtain ⟨⟨hst, hacc⟩, hrender⟩ := foldl_scanStep_spec s _ invP_init
  constructor
  · rw [scanRaw, renderAll_append, renderAll_stFlush _ hst]
    simpa [renderAll, stRender] using hrender
  · intro r hr
    rcases List.mem_append.1 hr with h1 | h1
    · exact hacc r h1
    · exact delimOk_stFlush _ hst r h1

/-- C1: for every raw text, concatenating all segment content values
produced by scan, interleaved with their original tag markers (and, to
recover the input exactly, the recorded tag-to-content delimiting
whitespace) at their original relative positions, reconstructs the input;
every recorded delimiter is a whitespace character, so dropping the
delimiters yields the input minus exactly that delimiting whitespace, and
scan drops no other characters. -/
theorem scan_reconstructs (s : String) :
    renderAll (scanRaw s.data) = s.data ∧
      ∀ r ∈ scanRaw s.data, ∀ c, r.delim = some c → c.isWhitespace = true :=
  ⟨(scanRaw_render s.data).1, fun r hr => (scanRaw_render s.data).2 r hr⟩

/-- Witness for `scan_reconstructs` at the input `"#a b"`. -/
theorem scan_reconstructs_witness :
    renderAll (scanRaw "#a b".data) = "#a b".data ∧ (' ').isWhitespace = true :=
  ⟨(scan_reconstructs "#a b").1,
    (scan_reconstructs "#a b").2 ⟨true, ['a'], some ' ', ['b']⟩ (by decide) ' ' rfl⟩

theorem withOrders_length (rs : List RawSeg) :
    ∀ n, (withOrders n rs).length = rs.length := by
  induction rs with
  | nil => intro n; simp [withOrders]
  | cons r rs ih => intro n; simp [withOrders, ih]

theorem withOrders_map_order (rs : List RawSeg) :
    ∀ n, (withOrders n rs).map Segment.order = List.range' n rs.length := by
  induction rs with
  | nil => intro n; simp [withOrders]
  | cons r rs ih => intro n; simp [withOrders, ih, List.range'_succ]

/-- C2: for every raw text, the `order` fields of the segments produced by
scan form the contiguous zero-based sequence `0, 1, 2, ...` over the
segment list, which is emitted in left-to-right appearance order. -/
theorem scan_orders_contiguous (s : String) :
    (ScanContent s).map Segment.order = List.range (ScanContent s).length := by
  rw [ScanContent, withOrders_map_order, withOrders_length, List.range_eq_range']

theorem foldl_scanStep_noHash (cs : List Char) :
    ∀ acc b, ¬ '#' ∈ cs →
      cs.foldl scanStep (acc, ScanSt.body false [] none b)
        = (acc, ScanSt.body false [] none (b ++ cs)) := by
  induction cs with
  | nil => intro acc b _; simp
  | cons c cs ih =>
    intro acc b h
    have hc : ¬ c = '#' := fun e => h (by simp [e])
    rw [List.foldl_cons, scanStep_body_other acc false [] none b c hc,
      ih acc (b ++ [c]) (fun hm => h (List.mem_cons_of_mem _ hm))]
    simp

/-- C3: for every raw text containing no `#`, scan yields exactly one
untagged segment holding the whole input when the input is non-empty, and
no segments when the input is empty. -/
theorem scan_no_hash (s : String) (h : ¬ '#' ∈ s.data) :
    (s ≠ "" → ScanContent s = [⟨"", s, 0⟩]) ∧ (s = "" → ScanContent s = []) := by
  have hfold := foldl_scanStep_noHash s.data [] [] h
  constructor
  · intro hs
    have hd : ¬ s.data = [] := by
      intro he
      apply hs
      obtain ⟨data⟩ := s
      simp only [String.data] at he
      simp [he]
    rw [ScanContent, scanRaw, hfold]
    simp only [stFlush, List.nil_append]
    rw [if_neg (fun hh => hd hh.2)]
    obtain ⟨data⟩ := s
    simp [withOrders, List.asString]
  · intro hs
    subst hs
    rfl

/-- Witness for `scan_no_hash` at the inputs `"abc"` and `""`. -/
theorem scan_no_hash_witness :
    ScanContent "abc" = [⟨"", "abc", 0⟩] ∧ ScanContent "" = [] :=
  ⟨(scan_no_hash "abc" (by decide)).1 (by decide),
    (scan_no_hash "" (by decide)).2 rfl⟩

/-- C4: scanning the mixed two-tag fixture yields exactly the two tagged
segments in order; the second `#` terminates the first tag content and the
single whitespace after each tag name is discarded. -/
theorem scan_two_tag_fixture :
    ScanContent "#科技 只是一条科技#美食 memo"
      = [⟨"科技", "只是一条科技", 0⟩, ⟨"美食", "memo", 1⟩] := by
  rfl

/-- C5: whenever scan meets a `#` while a non-empty untagged content
buffer is pending, it first flushes that buffer as an untagged segment and
only then starts the tag; on the fixture this yields the untagged segment
before the tagged one. -/
theorem scan_flush_before_tag :
    (∀ acc t d b, ¬ b = [] →
        scanStep (acc, ScanSt.body false t d b) '#'
          = (acc ++ [⟨false, t, d, b⟩], ScanSt.name [])) ∧
      ScanContent "有些人喜欢在中间加#标签 然后"
        = [⟨"", "有些人喜欢在中间加", 0⟩, ⟨"标签", "然后", 1⟩] := by
  refine ⟨?_, rfl⟩
  intro acc t d b hb
  rw [scanStep_body_hash]
  simp [stFlush, hb]

/-- Witness for `scan_flush_before_tag` at a pending one-character
buffer. -/
theorem scan_flush_before_tag_witness :
    scanStep ([], ScanSt.body false [] none ['x']) '#'
      = ([⟨false, [], none, ['x']⟩], ScanSt.name []) :=
  scan_flush_before_tag.1 [] [] none ['x'] (by decide)

/-- C6: the single whitespace delimiting a tag name from its content is
discarded (and only that one character); a `#` immediately followed by end
of input yields a segment with empty content; consecutive tags with no
content between them yield an empty-content segment for the first tag and
the content for the second. -/
theorem scan_delimiter_policy :
    ScanContent "#A b" = [⟨"A", "b", 0⟩] ∧
      ScanContent "#A  b" = [⟨"A", " b", 0⟩] ∧
      ScanContent "#" = [⟨"", "", 0⟩] ∧
      ScanContent "#A" = [⟨"A", "", 0⟩] ∧
      ScanContent "#A #B text" = [⟨"A", "", 0⟩, ⟨"B", "text", 1⟩] :=
  ⟨rfl, rfl, rfl, rfl, rfl⟩

theorem foldl_scanStep_name (t : List Char) :
    ∀ u acc, (∀ c ∈ t, ¬ c = '#' ∧ c.isWhitespace = false) →
      t.foldl scanStep (acc, ScanSt.name u) = (acc, ScanSt.name (u ++ t)) := by
  induction t with
  | nil => intro u acc _; simp
  | cons c cs ih =>
    intro u acc h
    obtain ⟨hc, hw⟩ := h c (by simp)
    rw [List.foldl_cons, scanStep_name_other acc u c hc hw,
      ih (u ++ [c]) acc (fun x hx => h x (List.mem_cons_of_mem _ hx))]
    simp

/-- C7: after a `#`, any run of characters containing neither whitespace
nor `#` is consumed whole as the tag name, with no validation of length or
alphabet; a tag glued to following text and a tag terminated by another
`#` behave accordingly. -/
theorem scan_tag_name_reading :
    (∀ t rest, (∀ c ∈ t, ¬ c = '#' ∧ c.isWhitespace = false) →
        ('#' :: (t ++ rest)).foldl scanStep ([], ScanSt.body false [] none [])
          = rest.foldl scanStep ([], ScanSt.name t)) ∧
      ScanContent "#AB" = [⟨"AB", "", 0⟩] ∧
      ScanContent "#A#B x" = [⟨"A", "", 0⟩, ⟨"B", "x", 1⟩] := by
  refine ⟨?_, rfl, rfl⟩
  intro t rest h
  rw [List.foldl_cons, scanStep_body_hash]
  have h0 : ([] : List RawSeg) ++ stFlush (ScanSt.body false [] none []) = [] := by
    simp [stFlush]
  rw [h0, List.foldl_append, foldl_scanStep_name t [] [] h, List.nil_append]

/-- Witness for `scan_tag_name_reading` at the glued tag `#AB`. -/
theorem scan_tag_name_reading_witness :
    ('#' :: (['A', 'B'] ++ [])).foldl scanStep ([], ScanSt.body false [] none [])
      = List.foldl scanStep ([], ScanSt.name ['A', 'B']) [] :=
  scan_tag_name_reading.1 ['A', 'B'] [] (by decide)

/-- Source chat platform of a message. -/
inductive Platform
  | wechat
  | lark
deriving Repr, DecidableEq

/-- A stored mapping from a chat-platform identity to document-database
credentials and target, read per dispatch. -/
structure Binding where
  platform : Platform
  externalUserID : String
  secretKey : String
  databaseID : String
deriving Repr, DecidableEq

/-- An inbound message event produced by the transport layer.  A missing
text or sender id is modelled as the empty string. -/
structure InboundMessageEvent where
  platform : Platform
  externalSenderID : String
  rawText : String
deriving Repr, DecidableEq

/-- The page-creation payload handed to the document-database client:
the binding credentials, the tag-metadata entries of the tagged segments
in order, and one content block per segment in order. -/
structure PageCreateRequest where
  secretKey : String
  databaseID : String
  tags : List String
  blocks : List String
deriving Repr, DecidableEq

/-- Modelled from the spec: the page composer of the application layer,
whose source is not in the repository snapshot.  Spec section 4.3: each
tagged segment contributes a tag-metadata entry and a content block; each
untagged segment contributes only a content block; the binding supplies
the credentials. -/
def compose (b : Binding) (segs : List Segment) : PageCreateRequest :=
  ⟨b.secretKey, b.databaseID,
    (segs.filter fun g => ¬ g.tag = "").map Segment.tag,
    segs.map Segment.content⟩

/-- The error taxonomy of the dispatcher, spec section 7. -/
inductive HandleError
  | validationError
  | bindingNotFoundError
  | externalAPIError (cause : String)
deriving Repr, DecidableEq

/-- Modelled from the spec: the dispatcher
`handle(event) -> error` of the application layer
(`application.NewLarkMessageHandleApp`), whose source is not in the
repository snapshot (only its construction in `cmd/nomo/main.go` is).
Collaborators are passed as pure functions: `findBinding` returns the
binding when one exists, `createPage` returns `some cause` on failure and
`none` on success.  The result pairs the returned error (or `none` on
success) with the list of messages handed to the notify collaborator, in
order of invocation. -/
def handle (findBinding : Platform → String → Option Binding)
    (createPage : String → String → PageCreateRequest → Option String)
    (ev : InboundMessageEvent) : Option HandleError × List String :=
  if ev.rawText = "" ∨ ev.externalSenderID = "" then
    (some HandleError.validationError, [])
  else
    match findBinding ev.platform ev.externalSenderID with
    | none => (some HandleError.bindingNotFoundError, [])
    | some b =>
      match createPage b.secretKey b.databaseID (compose b (ScanContent ev.rawText)) with
      | none => (none, [])
      | some e =>
        (some (HandleError.externalAPIError e), ["failed to create page: " ++ e])

/-- C8: for a well-formed event, `handle` returns `bindingNotFoundError`
and performs no notify invocation when no binding exists for the sender;
returns `externalAPIError` and invokes notify exactly once when the
document-database submission fails; and returns no error with no notify
invocation on full success. -/
theorem handle_error_policy (findBinding : Platform → String → Option Binding)
    (createPage : String → String → PageCreateRequest → Option String)
    (ev : InboundMessageEvent)
    (htext : ¬ ev.rawText = "") (hsender : ¬ ev.externalSenderID = "") :
    (findBinding ev.platform ev.externalSenderID = none →
        handle findBinding createPage ev
          = (some HandleError.bindingNotFoundError, [])) ∧
      (∀ b e, findBinding ev.platform ev.externalSenderID = some b →
        createPage b.secretKey b.databaseID (compose b (ScanContent ev.rawText))
            = some e →
        handle findBinding createPage ev
            = (some (HandleError.externalAPIError e), ["failed to create page: " ++ e])
          ∧ (handle findBinding createPage ev).2.length = 1) ∧
      (∀ b, findBinding ev.platform ev.externalSenderID = some b →
        createPage b.secretKey b.databaseID (compose b (ScanContent ev.rawText))
            = none →
        handle findBinding createPage ev = (none, [])) := by
  have hvalid : ¬ (ev.rawText = "" ∨ ev.externalSenderID = "") := by
    intro hor
    rcases hor with h1 | h1
    · exact htext h1
    · exact hsender h1
  refine ⟨?_, ?_, ?_⟩
  · intro hnone
    rw [handle, if_neg hvalid, hnone]
  · intro b e hb hcp
    rw [handle, if_neg hvalid, hb]
    simp only [hcp]
    exact ⟨trivial, rfl⟩
  · intro b hb hcp
    rw [handle, if_neg hvalid, hb]
    simp only [hcp]

/-- Witness for `handle_error_policy`: a concrete event with no binding
configured yields `bindingNotFoundError` and an empty notify log. -/
theorem handle_error_policy_witness :
    handle (fun _ _ => none) (fun _ _ _ => none) ⟨Platform.lark, "u1", "hi"⟩
      = (some HandleError.bindingNotFoundError, []) :=
  (handle_error_policy (fun _ _ => none) (fun _ _ _ => none)
    ⟨Platform.lark, "u1", "hi"⟩ (by decide) (by decide)).1 rfl

/-- C9: `compose` is deterministic and, being a pure function of its
arguments with no state, side-effect-free: identical `(binding, segments)`
inputs always yield identical `PageCreateRequest` values. -/
theorem compose_deterministic (b₁ b₂ : Binding) (s₁ s₂ : List Segment)
    (hb : b₁ = b₂) (hs : s₁ = s₂) : compose b₁ s₁ = compose b₂ s₂ := by
  rw [hb, hs]

/-- Witness for `compose_deterministic` at a concrete binding and segment
list. -/
theorem compose_deterministic_witness :
    compose ⟨Platform.lark, "u", "sk", "db"⟩ [⟨"t", "c", 0⟩]
      = compose ⟨Platform.lark, "u", "sk", "db"⟩ [⟨"t", "c", 0⟩] :=
  compose_deterministic ⟨Platform.lark, "u", "sk", "db"⟩
    ⟨Platform.lark, "u", "sk", "db"⟩ [⟨"t", "c", 0⟩] [⟨"t", "c", 0⟩] rfl rfl

/-- The observable effect of one notify invocation: either a text message
sent through the Lark bot, or a line written to the log. -/
inductive NotifyAction
  | sendTextMessage (idType : String) (userID : String) (chatID : String) (msg : String)
  | logInfo (line : String)
deriving Repr, DecidableEq

/-- The notify capability constructed in `cmd/nomo/main.go` lines 95 to
102: a closure over the `ADMIN_USERID` value read once at startup.  When
that value is non-empty it calls
`bot.SendTextMessage(larkbot.IDTypeUserID, adminUserID, "", msg)`
(the id-type constant is modelled as the string `"user_id"`); otherwise it
logs `Notify ==> <msg>` and never touches the bot. -/
def notify (adminUserID : String) (msg : String) : NotifyAction :=
  if ¬ adminUserID = "" then
    NotifyAction.sendTextMessage "user_id" adminUserID "" msg
  else
    NotifyAction.logInfo ("Notify ==> " ++ msg)

/-- C10: the notify capability branches solely on the `ADMIN_USERID`
value fixed at construction: for every message, a non-empty admin id sends
the message as a text message to that admin via the bot, and an empty
admin id only logs the message and never invokes the bot. -/
theorem notify_branches_on_admin (adminUserID msg : String) :
    (¬ adminUserID = "" →
        notify adminUserID msg
          = NotifyAction.sendTextMessage "user_id" adminUserID "" msg) ∧
      (adminUserID = "" →
        notify adminUserID msg = NotifyAction.logInfo ("Notify ==> " ++ msg)) := by
  constructor
  · intro h
    rw [notify, if_pos h]
  · intro h
    rw [notify, if_neg (fun hn => hn h)]

/-- Witness for `notify_branches_on_admin` on a configured and an
unconfigured admin id. -/
theorem notify_branches_on_admin_witness :
    notify "admin" "m" = NotifyAction.sendTextMessage "user_id" "admin" "" "m" ∧
      notify "" "m" = NotifyAction.logInfo ("Notify ==> " ++ "m") :=
  ⟨(notify_branches_on_admin "admin" "m").1 (by decide),
    (notify_branches_on_admin "" "m").2 rfl⟩

end Nomo
